import Mathlib

/-!
Verification development for the lightning-data pipeline
(`src/ingest.py`, `src/api.py`).

Shallow embedding conventions:
* Python byte strings are `List ℕ` (each element a byte value `< 256`).
* Python text strings are `List Char`.
* Python floats are modelled as exact rationals `ℚ` (the code only parses
  decimal strings, divides by powers of ten and compares against small
  constants, so the rational model tracks the float code except at
  double-precision rounding boundaries, which no claim exercises).
* Fallible Python code (functions that may raise and be caught, returning
  `None`) is modelled with `Option`.
-/

namespace LightningPipeline

/-! ### Python `float()` on strings drawn from the extraction regexes

`_extract_fields` feeds `float()` only strings captured by character classes
`[0-9.-]` / `\d`.  On that alphabet `float()` accepts an optional single
leading sign followed by digits with at most one decimal point (and at least
one digit); anything else raises `ValueError`. -/

def isDigitChar (c : Char) : Bool := decide ('0' ≤ c) && decide (c ≤ '9')

def digitVal (c : Char) : ℕ := c.toNat - 48

/-- Value of a digit string, most significant digit first. -/
def natOfDigits (l : List Char) : ℕ := l.foldl (fun a c => 10 * a + digitVal c) 0

/-- Decompose a Python-float string into (negative-sign, integer-part value,
fraction value, fraction length); `none` models `ValueError`. -/
def pyFloatParts (s : List Char) : Option (Bool × ℕ × ℕ × ℕ) :=
  let (sg, body) : Bool × List Char :=
    match s with
    | c :: t => if c = '-' then (true, t) else if c = '+' then (false, t) else (false, s)
    | [] => (false, [])
  if (body.all fun c => isDigitChar c || c = '.') &&
      (body.count '.' ≤ 1 : Bool) && body.any isDigitChar then
    let intP := body.takeWhile (fun c => c ≠ '.')
    let frac := (body.dropWhile (fun c => c ≠ '.')).drop 1
    some (sg, natOfDigits intP, natOfDigits frac, frac.length)
  else none

/-- Python `float(s)` as an exact rational. -/
def pyFloat (s : List Char) : Option ℚ :=
  (pyFloatParts s).map fun p =>
    (if p.1 then -1 else 1) * ((p.2.1 : ℚ) + (p.2.2.1 : ℚ) / 10 ^ p.2.2.2)

/-! ### `str(abs(int(value)))` -/

/-- Python `abs(int(v))` for a rational `v`: Python `int()` truncates toward zero,
so the absolute value is `⌊|v|⌋ = |num| / den`. -/
def truncAbs (v : ℚ) : ℕ := v.num.natAbs / v.den

/-- Little-endian decimal digits, driven by explicit fuel so that the kernel
can evaluate it on literals. -/
def natDigitsAux : ℕ → ℕ → List ℕ
  | 0, _ => []
  | fuel + 1, n => if n = 0 then [] else n % 10 :: natDigitsAux fuel (n / 10)

/-- The decimal digit string of `n`, most significant first, mirroring
Python `str(n)` for `n : ℕ` (so `strDigits 0 = [0]`, else no leading zero). -/
def strDigits (n : ℕ) : List ℕ := if n = 0 then [0] else (natDigitsAux n n).reverse

/-- Numeric value of a digit list, most significant first (`int(s)`). -/
def valOfDigits (l : List ℕ) : ℕ := l.foldl (fun a d => 10 * a + d) 0

/-! ### `BlitzortungDecoder._fix_longitude` (src/ingest.py:281-306) -/

/-- Value `float(s[:i] + '.' + s[i:])` for the digit string `ds`: the candidate
value obtained by inserting a decimal point at position `i`. -/
def candAt (ds : List ℕ) (i : ℕ) : ℚ :=
  (valOfDigits (ds.take i) : ℚ) + (valOfDigits (ds.drop i) : ℚ) / 10 ^ (ds.length - i)

/-- The `for i in range(1, len(str_val))` scan: first insertion position
whose candidate magnitude is `<= 180`, if any. -/
def scanFirst (ds : List ℕ) : Option ℚ :=
  ((List.range' 1 (ds.length - 1)).map fun i => candAt ds i).find? fun c => decide (c ≤ 180)

/-- Model of `_fix_longitude(lon_str)`.  `none` models the `except: return None`
branch (the string does not parse as a float). -/
def fixLongitude (s : List Char) : Option ℚ :=
  match pyFloat s with
  | none => none
  | some value =>
    if 1000 < |value| then
      let ds := strDigits (truncAbs value)
      if 6 ≤ ds.length then
        let corrected :=
          if ds.length = 8 then candAt ds 2
          else if ds.length = 7 then candAt ds 2
          else
            match scanFirst ds with
            | some c => c
            | none => value
        some (if value < 0 then -corrected else corrected)
      else some value
    else some value

/-! ### Regex searches of `BlitzortungDecoder._extract_fields`
(src/ingest.py:226-279)

Each Python regex used there has a separator class disjoint from its capture
class, so greedy matching without backtracking is faithful; the one
exception, the `pol` pattern, is modelled with its single relevant
backtracking step. `re.search` scans start positions left to right. -/

def isSepTime (c : Char) : Bool := c = '"' || c = ':'

def isSepLoose (c : Char) : Bool :=
  c = ':' || c = ' ' || c = '\t' || c = '\n' || c = '\r' || c = '\x0b' || c = '\x0c'

def isNumChar (c : Char) : Bool := isDigitChar c || c = '.' || c = '-'

def startsWithL : List Char → List Char → Bool
  | [], _ => true
  | _ :: _, [] => false
  | x :: xs, y :: ys => x = y && startsWithL xs ys

/-- Match `lit`, then at least `minSep` separator characters, then a
nonempty capture, at the head of `s`. -/
def matchFieldAt (lit : List Char) (sep : Char → Bool) (minSep : ℕ) (cap : Char → Bool)
    (s : List Char) : Option (List Char) :=
  if startsWithL lit s then
    let r1 := s.drop lit.length
    let seps := r1.takeWhile sep
    if minSep ≤ seps.length then
      let capd := (r1.drop seps.length).takeWhile cap
      if capd.isEmpty then none else some capd
    else none
  else none

/-- Model of `re.search`: try the matcher at each start position, left to right. -/
def searchWith (m : List Char → Option (List Char)) : List Char → Option (List Char)
  | [] => none
  | c :: rest =>
    match m (c :: rest) with
    | some r => some r
    | none => searchWith m rest

/-- Search `re.search(r'time[":]+(\d+)', text)` returning `int(group(1))`. -/
def searchTime (text : List Char) : Option ℕ :=
  (searchWith (matchFieldAt ['t', 'i', 'm', 'e'] isSepTime 1 isDigitChar) text).map natOfDigits

/-- Search `re.search(r'lat[:\s]*([0-9.-]+)', text)`. -/
def searchLat (text : List Char) : Option (List Char) :=
  searchWith (matchFieldAt ['l', 'a', 't'] isSepLoose 0 isNumChar) text

/-- Search `re.search(r'lon[:\s]*([0-9.-]+)', text)`. -/
def searchLon (text : List Char) : Option (List Char) :=
  searchWith (matchFieldAt ['l', 'o', 'n'] isSepLoose 0 isNumChar) text

/-- Search `re.search(r'mds[:\s]*([0-9.-]+)', text)`. -/
def searchMds (text : List Char) : Option (List Char) :=
  searchWith (matchFieldAt ['m', 'd', 's'] isSepLoose 0 isNumChar) text

/-- Search `re.search(r'mcg[:\s]*([0-9.-]+)', text)`. -/
def searchMcg (text : List Char) : Option (List Char) :=
  searchWith (matchFieldAt ['m', 'c', 'g'] isSepLoose 0 isNumChar) text

/-- Match `"?al"?[:\s]*([0-9.-]+)` at the head of `s`.  The optional quotes
are consumed greedily; since a quote can never start the numeric capture,
skipping the backtracking alternatives is faithful. -/
def matchAltAt (s : List Char) : Option (List Char) :=
  let s1 := match s with | c :: t => if c = '"' then t else s | [] => s
  if startsWithL ['a', 'l'] s1 then
    let s2 := s1.drop 2
    let s3 := match s2 with | c :: t => if c = '"' then t else s2 | [] => s2
    let seps := s3.takeWhile isSepLoose
    let capd := (s3.drop seps.length).takeWhile isNumChar
    if capd.isEmpty then none else some capd
  else none

def searchAlt (text : List Char) : Option (List Char) :=
  searchWith matchAltAt text

/-- Match `pol[:\s]*"?([^"]+)"?` at the head of `s`.  The capture class
`[^"]` overlaps the separator class, so when the greedy separator run leaves
an empty capture the regex engine backtracks one separator; that is the
`0 < k` fallback branch. -/
def matchPolAt (s : List Char) : Option (List Char) :=
  if startsWithL ['p', 'o', 'l'] s then
    let r := s.drop 3
    let k := (r.takeWhile isSepLoose).length
    let afterSeps := r.drop k
    let base := match afterSeps with | c :: t => if c = '"' then t else afterSeps | [] => afterSeps
    let capd := base.takeWhile fun c => c ≠ '"'
    if capd.isEmpty then
      if 0 < k then some ((r.drop (k - 1)).takeWhile fun c => c ≠ '"') else none
    else some capd
  else none

def searchPol (text : List Char) : Option (List Char) :=
  searchWith matchPolAt text

/-- Value `pol = pol_match.group(1) if pol_match and pol_match.group(1) != 'mds' else None`. -/
def polValue (text : List Char) : Option (List Char) :=
  match searchPol text with
  | none => none
  | some p => if p = ['m', 'd', 's'] then none else some p

/-! ### Timestamp normalization (src/ingest.py:236-242)

The result is the UTC instant as rational seconds since the epoch.  (The
Python code materialises it as a `datetime`; the epoch-seconds value is what
distinguishes the three unit branches.) -/

def normalizeTimestamp (raw : ℕ) : ℚ :=
  if (10 : ℚ) ^ 15 < (raw : ℚ) then (raw : ℚ) / 1000000
  else if (10 : ℚ) ^ 12 < (raw : ℚ) then (raw : ℚ) / 1000
  else (raw : ℚ)

/-! ### `_extract_fields` record assembly -/

/-- Python `int(q)` (truncation toward zero) for a rational. -/
def truncInt (q : ℚ) : ℤ := q.num.tdiv q.den

/-- The candidate strike dict built by `_extract_fields` (values may be
`None`, hence the `Option` fields). -/
structure StrikeCand where
  time : ℕ
  timestamp : ℚ
  lat : Option ℚ
  lon : Option ℚ
  alt : Option ℤ
  pol : Option (List Char)
  mds : Option ℤ
  mcg : Option ℤ
deriving DecidableEq

/-- Model of `int(float(m.group(1))) if m else None`; the outer `none` is the
exception path (unparsable number aborts the whole extraction), the inner
`Option` is field absence. -/
def parseIntField (x : Option (List Char)) : Option (Option ℤ) :=
  match x with
  | none => some none
  | some cs =>
    match pyFloat cs with
    | none => none
    | some q => some (some (truncInt q))

/-- Model of `BlitzortungDecoder._extract_fields` (src/ingest.py:226-279): `none`
models both the explicit `return None` branches and the caught exceptions.
(The `datetime.fromtimestamp` range limits are not modelled; no claim
depends on them.) -/
def extractFields (text : List Char) : Option StrikeCand :=
  match searchTime text with
  | none => none
  | some rawT =>
    match searchLat text, searchLon text with
    | some latS, some lonS =>
      (match pyFloat latS with
      | none => none
      | some lat =>
        let lon := fixLongitude lonS
        match parseIntField (searchAlt text) with
        | none => none
        | some alt =>
          match parseIntField (searchMds text) with
          | none => none
          | some mds =>
            match parseIntField (searchMcg text) with
            | none => none
            | some mcg =>
              some ⟨rawT, normalizeTimestamp rawT, some lat, lon, alt, polValue text, mds, mcg⟩)
    | _, _ => none

/-! ### `BlitzortungDecoder._validate_strike` (src/ingest.py:308-323) -/

def validateStrike (s : StrikeCand) : Bool :=
  match s.lat, s.lon with
  | some la, some lo => if 90 < |la| ∨ 180 < |lo| then false else true
  | _, _ => false

/-- The per-frame result of `decode` after substitutions and UTF-8 decoding
produced `text`: a validated strike record or `None`. -/
def decodeText (text : List Char) : Option StrikeCand :=
  match extractFields text with
  | none => none
  | some c => if validateStrike c then some c else none

/-! ### Ingestion counters: `on_data` and `LightningDatabase.update_stats`
(src/ingest.py:123-138, 335-355) -/

structure Stats where
  received : ℕ
  stored : ℕ
  failed : ℕ
deriving DecidableEq

/-- Model of `update_stats(received=r, stored=st, failed=f)`: the SQL statement adds
each delta to its counter. -/
def updateStats (s : Stats) (r st f : ℕ) : Stats :=
  ⟨s.received + r, s.stored + st, s.failed + f⟩

/-- The row inserted by `create_tables` when the stats table is empty. -/
def initialStats : Stats := ⟨0, 0, 0⟩

/-- The counter effect of one `on_data` call: `strike` is the decoder
result for the frame, `insertOk` the outcome of `insert_strike`. -/
def onDataStep (insertOk : Bool) (strike : Option StrikeCand) (s : Stats) : Stats :=
  match strike with
  | some _ => if insertOk then updateStats s 1 1 0 else updateStats s 1 0 1
  | none => updateStats s 1 0 1

/-- Counters after a sequence of frames, each summarised by its insert
outcome and decode result, starting from the all-zero row. -/
def runFrames (events : List (Bool × Option StrikeCand)) : Stats :=
  events.foldl (fun s e => onDataStep e.1 e.2 s) initialStats

/-! ### Byte substitution: `BlitzortungDecoder.substitutions` / `decode`
(src/ingest.py:167-211)

`bytes.replace` for a two-byte pattern: scan left to right, replace each
non-overlapping occurrence, never rescanning replaced output. -/

def replace2 (a b : ℕ) (r : List ℕ) : List ℕ → List ℕ
  | [] => []
  | [x] => [x]
  | x :: y :: rest =>
    if x = a ∧ y = b then r ++ replace2 a b r rest
    else x :: replace2 a b r (y :: rest)

/-- The `substitutions` table in its Python dict iteration order (insertion
order; the duplicate key `c4 8e`, bound to `6` both times, appears once). -/
def subTable : List ((ℕ × ℕ) × List ℕ) :=
  [((196, 136), [48]), ((196, 137), [49]), ((196, 138), [50]), ((196, 139), [51]),
   ((196, 140), [52]), ((196, 141), [53]), ((196, 142), [54]), ((196, 143), [55]),
   ((196, 144), [56]), ((196, 145), [57]), ((196, 146), [50]), ((196, 147), [51]),
   ((196, 148), [52]), ((196, 149), [53]), ((196, 150), [54]), ((196, 151), [55]),
   ((196, 152), [56]), ((196, 153), [57]), ((196, 154), [48]), ((196, 155), [49]),
   ((196, 160), [48]), ((196, 161), [49]), ((196, 162), [50]), ((196, 163), [51]),
   ((196, 164), [52]), ((196, 165), [53]), ((196, 166), [54]), ((196, 167), [55]),
   ((196, 168), [56]), ((196, 169), [57]),
   ((196, 134), [58, 32]), ((196, 135), [46]),
   ((196, 184), [34]), ((196, 185), [34]), ((196, 186), [34]), ((196, 187), [34]),
   ((196, 188), [34]), ((196, 189), [34]), ((196, 156), [34]), ((196, 157), [34]),
   ((196, 158), [34]), ((196, 159), [34]), ((196, 176), [34]), ((196, 177), [34]),
   ((196, 178), [34]), ((196, 179), [34]), ((196, 180), [34]), ((196, 181), [34]),
   ((196, 172), []), ((197, 134), [54]), ((196, 171), []), ((196, 170), []),
   ((196, 182), []), ((197, 128), []), ((197, 132), [52]), ((197, 129), []),
   ((196, 173), []), ((197, 133), [53]), ((197, 137), [57]), ((197, 136), [56]),
   ((196, 128), []), ((197, 155), []), ((197, 141), []),
   ((196, 129), []), ((196, 131), []), ((196, 133), []), ((196, 174), []),
   ((196, 190), [])]

/-- The substitution loop of `decode`: one `replace` pass per table entry,
in table order. -/
def applySubs (table : List ((ℕ × ℕ) × List ℕ)) (s : List ℕ) : List ℕ :=
  table.foldl (fun acc e => replace2 e.1.1 e.1.2 e.2 acc) s

/-- Structural facts the table satisfies (checked by `decide` below): lead
byte 196/197, trail byte a UTF-8 continuation byte, replacement pure ASCII. -/
def entryOK (e : (ℕ × ℕ) × List ℕ) : Prop :=
  (e.1.1 = 196 ∨ e.1.1 = 197) ∧ 128 ≤ e.1.2 ∧ e.1.2 < 192 ∧ ∀ c ∈ e.2, c < 128

instance : DecidablePred entryOK := fun e => by unfold entryOK; infer_instance

/-! ### `api.py`: ingestion stats endpoint (src/api.py:279-301) -/

/-- Python `round` to an integer: round half to even. -/
def roundHalfEven (q : ℚ) : ℤ :=
  if q - ⌊q⌋ < 1 / 2 then ⌊q⌋
  else if (1 : ℚ) / 2 < q - ⌊q⌋ then ⌊q⌋ + 1
  else if 2 ∣ ⌊q⌋ then ⌊q⌋ else ⌊q⌋ + 1

/-- Python `round(q, 2)` (ideal decimal semantics of the rational model). -/
def round2 (q : ℚ) : ℚ := (roundHalfEven (q * 100) : ℚ) / 100

/-- Value `success_rate = (stored / total * 100) if total > 0 else 0`. -/
def ingestionSuccessRate (received stored : ℕ) : ℚ :=
  if 0 < received then (stored : ℚ) / (received : ℚ) * 100 else 0

/-- The `success_rate` value in the `/ingestion/stats` response:
`round(success_rate, 2)`. -/
def ingestionRateResponse (received stored : ℕ) : ℚ :=
  round2 (ingestionSuccessRate received stored)

/-! ### `api.py`: proximity query `get_nearby_strikes` (src/api.py:191-240)

The candidate rows come from the bounding-box SQL pre-fetch; the Python code
then filters by `haversine_distance`, attaches `round(distance, 2)`, sorts
by that attached value (Python's stable sort) and truncates to `limit`.
The pipeline is parametrised by the distance function `dist`; in `api.py`
`dist` is the haversine great-circle distance with Earth radius 6371 km,
a transcendental function outside the rational fragment, and every theorem
below holds for an arbitrary `dist`. -/

structure StrikeRow where
  id : ℕ
  latitude : ℚ
  longitude : ℚ
deriving DecidableEq

/-- Stable insertion of `x` after all earlier elements with key `≤ key x`. -/
def insSorted (key : α → ℚ) (x : α) : List α → List α
  | [] => [x]
  | y :: ys => if key y ≤ key x then y :: insSorted key x ys else x :: y :: ys

/-- Stable sort by a rational key (the semantics of Python `list.sort`). -/
def sortByKey (key : α → ℚ) (l : List α) : List α :=
  l.foldl (fun acc x => insSorted key x acc) []

/-- The SQL `LIMIT` passed to the pre-fetch: `limit * 2`. -/
def prefetchCount (limit : ℕ) : ℕ := limit * 2

/-- The post-fetch part of `get_nearby_strikes`: keep rows with
`dist ≤ radius`, attach `round(dist, 2)` as `distance_km`, sort by the
attached value, truncate to `limit`. -/
def nearbyPipeline (dist : StrikeRow → ℚ) (radius : ℚ) (limit : ℕ)
    (rows : List StrikeRow) : List (StrikeRow × ℚ) :=
  let filtered := (rows.filter fun s => decide (dist s ≤ radius)).map fun s => (s, round2 (dist s))
  (sortByKey (fun p => p.2) filtered).take limit

/-! ### Concrete fixtures used in the theorems below -/

/-- A candidate record with the given coordinates and no optional fields. -/
def mkCand (la lo : Option ℚ) : StrikeCand :=
  ⟨0, 0, la, lo, none, none, none, none⟩

/-- Synthetic rows for the proximity-query fixture: the query center
(32.7157, -117.1611) itself, a point about 10 km north, and a point about
60 km north. -/
def row0 : StrikeRow := ⟨0, 327157 / 10000, -1171611 / 10000⟩

def row10 : StrikeRow := ⟨1, 328057 / 10000, -1171611 / 10000⟩

def row60 : StrikeRow := ⟨2, 332557 / 10000, -1171611 / 10000⟩

/-- The synthetic great-circle distances (km) of the three fixture rows
from the query center. -/
def exampleDist (s : StrikeRow) : ℚ :=
  if s.id = 0 then 0 else if s.id = 1 then 10 else 60

/-- Two rows whose exact distances differ only in the third decimal digit
(10.004 km and 10.001 km). -/
def rowNearA : StrikeRow := ⟨1, 327157 / 10000, -1170500 / 10000⟩

def rowNearB : StrikeRow := ⟨2, 327157 / 10000, -1170501 / 10000⟩

def tieDist (s : StrikeRow) : ℚ :=
  if s.id = 1 then 10004 / 1000 else 10001 / 1000

/-! ## Supporting lemmas: decimal digit strings -/

theorem natDigitsAux_zero (fuel : ℕ) : natDigitsAux fuel 0 = [] := by
  cases fuel <;> simp [natDigitsAux]

theorem natDigitsAux_lt_ten : ∀ (fuel m : ℕ), ∀ d ∈ natDigitsAux fuel m, d < 10 := by
  intro fuel
  induction fuel with
  | zero => intro m d hd; simp [natDigitsAux] at hd
  | succ f ih =>
    intro m d hd
    rw [natDigitsAux] at hd
    by_cases hm : m = 0
    · simp [hm] at hd
    · rw [if_neg hm] at hd
      rcases List.mem_cons.mp hd with h | h
      · subst h; exact Nat.mod_lt m (by norm_num)
      · exact ih (m / 10) d h

theorem natDigitsAux_concat : ∀ (fuel m : ℕ), m ≠ 0 → m ≤ fuel →
    ∃ d tl, natDigitsAux fuel m = tl ++ [d] ∧ 1 ≤ d := by
  intro fuel
  induction fuel with
  | zero => intro m hm hle; omega
  | succ f ih =>
    intro m hm hle
    rw [natDigitsAux, if_neg hm]
    by_cases hq : m / 10 = 0
    · refine ⟨m % 10, [], ?_, ?_⟩
      · rw [hq, natDigitsAux_zero]
        rfl
      · have hlt : m < 10 := by omega
        rw [Nat.mod_eq_of_lt hlt]
        omega
    · obtain ⟨d, tl, heq, hd⟩ := ih (m / 10) hq (by omega)
      exact ⟨d, m % 10 :: tl, by rw [heq]; rfl, hd⟩

theorem strDigits_lt_ten (n : ℕ) : ∀ d ∈ strDigits n, d < 10 := by
  intro d hd
  rw [strDigits] at hd
  by_cases hn : n = 0
  · rw [if_pos hn] at hd
    simp at hd
    omega
  · rw [if_neg hn, List.mem_reverse] at hd
    exact natDigitsAux_lt_ten n n d hd

theorem strDigits_ne_nil (n : ℕ) : strDigits n ≠ [] := by
  rw [strDigits]
  by_cases hn : n = 0
  · simp [hn]
  · rw [if_neg hn]
    obtain ⟨d, tl, heq, _⟩ := natDigitsAux_concat n n hn le_rfl
    rw [heq]
    simp

theorem strDigits_headI_pos (n : ℕ) (h : n ≠ 0) : 1 ≤ (strDigits n).headI := by
  rw [strDigits, if_neg h]
  obtain ⟨d, tl, heq, hd⟩ := natDigitsAux_concat n n h le_rfl
  rw [heq, List.reverse_append]
  simpa using hd

theorem valOfDigits_foldl_lt : ∀ (l : List ℕ) (a : ℕ), (∀ d ∈ l, d < 10) →
    List.foldl (fun acc d => 10 * acc + d) a l < (a + 1) * 10 ^ l.length := by
  intro l
  induction l with
  | nil => intro a _; simp
  | cons d t ih =>
    intro a h
    have hd : d < 10 := h d (List.mem_cons_self d t)
    have ht : ∀ x ∈ t, x < 10 := fun x hx => h x (List.mem_cons_of_mem _ hx)
    calc List.foldl (fun acc d => 10 * acc + d) (10 * a + d) t
        < (10 * a + d + 1) * 10 ^ t.length := ih (10 * a + d) ht
      _ ≤ ((a + 1) * 10) * 10 ^ t.length := by
          have : 10 * a + d + 1 ≤ (a + 1) * 10 := by omega
          exact Nat.mul_le_mul_right _ this
      _ = (a + 1) * 10 ^ (t.length + 1) := by ring

theorem valOfDigits_lt (l : List ℕ) (h : ∀ d ∈ l, d < 10) :
    valOfDigits l < 10 ^ l.length := by
  have := valOfDigits_foldl_lt l 0 h
  simpa [valOfDigits] using this

theorem candAt_head_lt_ten (ds : List ℕ) (hne : ds ≠ []) (hd : ∀ d ∈ ds, d < 10) :
    candAt ds 1 < 10 := by
  obtain ⟨d0, tl, rfl⟩ := List.exists_cons_of_ne_nil hne
  have hd0 : d0 < 10 := hd d0 (List.mem_cons_self d0 tl)
  have htl : ∀ d ∈ tl, d < 10 := fun d hmem => hd d (List.mem_cons_of_mem _ hmem)
  have hval : valOfDigits tl < 10 ^ tl.length := valOfDigits_lt tl htl
  have h1 : candAt (d0 :: tl) 1 = (d0 : ℚ) + (valOfDigits tl : ℚ) / 10 ^ tl.length := by
    simp [candAt, valOfDigits]
  rw [h1]
  have hfrac : (valOfDigits tl : ℚ) / 10 ^ tl.length < 1 := by
    rw [div_lt_one (by positivity)]
    exact_mod_cast hval
  have hle : (d0 : ℚ) ≤ 9 := by exact_mod_cast Nat.lt_succ_iff.mp hd0
  linarith

theorem scanFirst_head (ds : List ℕ) (h2 : 2 ≤ ds.length) (hc : candAt ds 1 ≤ 180) :
    scanFirst ds = some (candAt ds 1) := by
  unfold scanFirst
  obtain ⟨k, hk⟩ : ∃ k, ds.length - 1 = k + 1 := ⟨ds.length - 2, by omega⟩
  rw [hk, show List.range' 1 (k + 1) = 1 :: List.range' 2 k from rfl]
  simp only [List.map_cons]
  rw [List.find?_cons_of_pos]
  rw [decide_eq_true_eq]
  exact hc

theorem truncAbs_le (k : ℕ) (v : ℚ) (h : (k : ℚ) < |v|) : k ≤ truncAbs v := by
  have hden : (0 : ℚ) < (v.den : ℚ) := by exact_mod_cast v.pos
  have hden' : (v.den : ℚ) ≠ 0 := ne_of_gt hden
  have hvd : (v.num : ℚ) = v * (v.den : ℚ) := (div_eq_iff hden').mp (Rat.num_div_den v)
  have habs : (v.num.natAbs : ℚ) = |v| * (v.den : ℚ) := by
    rw [Int.cast_natAbs, Int.cast_abs, hvd, abs_mul, abs_of_pos hden]
  have hmul : (k : ℚ) * (v.den : ℚ) < (v.num.natAbs : ℚ) := by
    rw [habs]
    exact mul_lt_mul_of_pos_right h hden
  have hnat : k * v.den < v.num.natAbs := by exact_mod_cast hmul
  rw [truncAbs]
  rw [Nat.le_div_iff_mul_le v.pos]
  omega

/-- The body of `fixLongitude` once the input parses. -/
theorem fixLongitude_some (s : List Char) (v : ℚ) (h : pyFloat s = some v) :
    fixLongitude s =
      if 1000 < |v| then
        if 6 ≤ (strDigits (truncAbs v)).length then
          some (if v < 0 then
              -(if (strDigits (truncAbs v)).length = 8 then candAt (strDigits (truncAbs v)) 2
                else if (strDigits (truncAbs v)).length = 7 then candAt (strDigits (truncAbs v)) 2
                else match scanFirst (strDigits (truncAbs v)) with | some c => c | none => v)
            else
              (if (strDigits (truncAbs v)).length = 8 then candAt (strDigits (truncAbs v)) 2
                else if (strDigits (truncAbs v)).length = 7 then candAt (strDigits (truncAbs v)) 2
                else match scanFirst (strDigits (truncAbs v)) with | some c => c | none => v))
        else some v
      else some v := by
  unfold fixLongitude
  rw [h]

/-! ## Supporting lemmas: stable insertion sort -/

theorem insSorted_perm (key : α → ℚ) (x : α) :
    ∀ l : List α, (insSorted key x l).Perm (x :: l) := by
  intro l
  induction l with
  | nil => rfl
  | cons y ys ih =>
    rw [insSorted]
    split_ifs with h
    · exact (ih.cons y).trans (List.Perm.swap x y ys)
    · exact List.Perm.refl _

theorem foldl_insSorted_perm (key : α → ℚ) :
    ∀ (l acc : List α), (l.foldl (fun a x => insSorted key x a) acc).Perm (acc ++ l) := by
  intro l
  induction l with
  | nil => intro acc; simp
  | cons x xs ih =>
    intro acc
    have h1 := ih (insSorted key x acc)
    have h2 : (insSorted key x acc ++ xs).Perm ((x :: acc) ++ xs) :=
      (insSorted_perm key x acc).append_right xs
    have h3 : ((x :: acc) ++ xs).Perm (acc ++ x :: xs) := by
      simpa using List.perm_middle.symm
    simpa using (h1.trans h2).trans h3

theorem sortByKey_perm (key : α → ℚ) (l : List α) : (sortByKey key l).Perm l := by
  have := foldl_insSorted_perm key l []
  simpa [sortByKey] using this

theorem insSorted_pairwise (key : α → ℚ) (x : α) :
    ∀ l : List α, (l.Pairwise fun a b => key a ≤ key b) →
      (insSorted key x l).Pairwise fun a b => key a ≤ key b := by
  intro l
  induction l with
  | nil => intro _; simp [insSorted]
  | cons y ys ih =>
    intro h
    by_cases hc : key y ≤ key x
    · rw [insSorted, if_pos hc, List.pairwise_cons]
      rw [List.pairwise_cons] at h
      refine ⟨fun b hb => ?_, ih h.2⟩
      rcases List.mem_cons.mp ((insSorted_perm key x ys).mem_iff.mp hb) with rfl | hbm
      · exact hc
      · exact h.1 b hbm
    · rw [insSorted, if_neg hc, List.pairwise_cons]
      refine ⟨fun b hb => ?_, h⟩
      rcases List.mem_cons.mp hb with rfl | hbm
      · exact le_of_not_le hc
      · rw [List.pairwise_cons] at h
        exact le_trans (le_of_not_le hc) (h.1 b hbm)

theorem foldl_insSorted_pairwise (key : α → ℚ) :
    ∀ (l acc : List α), (acc.Pairwise fun a b => key a ≤ key b) →
      ((l.foldl (fun a x => insSorted key x a) acc).Pairwise fun a b => key a ≤ key b) := by
  intro l
  induction l with
  | nil => intro acc h; simpa using h
  | cons x xs ih =>
    intro acc h
    exact ih (insSorted key x acc) (insSorted_pairwise key x acc h)

theorem sortByKey_pairwise (key : α → ℚ) (l : List α) :
    (sortByKey key l).Pairwise fun a b => key a ≤ key b :=
  foldl_insSorted_pairwise key l [] (List.Pairwise.nil)

/-! ## Supporting lemmas: byte substitution -/

theorem replace2_cons_cons_pos (a b : ℕ) (r t : List ℕ) :
    replace2 a b r (a :: b :: t) = r ++ replace2 a b r t := by
  rw [replace2, if_pos ⟨rfl, rfl⟩]

theorem replace2_cons_cons_pos' (a b : ℕ) (r : List ℕ) (x y : ℕ) (t : List ℕ)
    (h : x = a ∧ y = b) :
    replace2 a b r (x :: y :: t) = r ++ replace2 a b r t := by
  obtain ⟨rfl, rfl⟩ := h
  exact replace2_cons_cons_pos x y r t

theorem replace2_cons_cons_neg (a b : ℕ) (r : List ℕ) (x y : ℕ) (t : List ℕ)
    (h : ¬(x = a ∧ y = b)) :
    replace2 a b r (x :: y :: t) = x :: replace2 a b r (y :: t) := by
  rw [replace2, if_neg h]

theorem replace2_cons_of_head (a b : ℕ) (r : List ℕ) (x : ℕ) (s : List ℕ)
    (h : ∀ y, s.head? = some y → ¬(x = a ∧ y = b)) :
    replace2 a b r (x :: s) = x :: replace2 a b r s := by
  cases s with
  | nil => rfl
  | cons y t => exact replace2_cons_cons_neg a b r x y t (h y rfl)

theorem replace2_split_self (a b : ℕ) (r : List ℕ) (hab : a ≠ b) :
    ∀ (u v : List ℕ), replace2 a b r (u ++ a :: b :: v) =
      replace2 a b r u ++ r ++ replace2 a b r v
  | [], v => by
    rw [List.nil_append, replace2_cons_cons_pos]
    simp [replace2]
  | [x], v => by
    rw [show ([x] ++ a :: b :: v) = x :: a :: b :: v from rfl,
      replace2_cons_cons_neg a b r x a _ (fun hc => hab hc.2),
      replace2_cons_cons_pos]
    simp [replace2]
  | x :: y :: u, v => by
    by_cases hxy : x = a ∧ y = b
    · rw [show ((x :: y :: u) ++ a :: b :: v) = x :: y :: (u ++ a :: b :: v) from rfl,
        replace2_cons_cons_pos' a b r x y _ hxy,
        replace2_split_self a b r hab u v,
        replace2_cons_cons_pos' a b r x y u hxy]
      simp
    · rw [show ((x :: y :: u) ++ a :: b :: v) = x :: y :: (u ++ a :: b :: v) from rfl,
        replace2_cons_cons_neg a b r x y _ hxy,
        show (y :: (u ++ a :: b :: v)) = (y :: u) ++ a :: b :: v from rfl,
        replace2_split_self a b r hab (y :: u) v,
        replace2_cons_cons_neg a b r x y u hxy]
      simp

theorem replace2_split_other (aq bq : ℕ) (rq : List ℕ) (a b : ℕ)
    (hne : ¬(a = aq ∧ b = bq)) (h1 : a ≠ bq) (h2 : b ≠ aq) :
    ∀ (u v : List ℕ), replace2 aq bq rq (u ++ a :: b :: v) =
      replace2 aq bq rq u ++ a :: b :: replace2 aq bq rq v
  | [], v => by
    rw [List.nil_append, replace2_cons_cons_neg aq bq rq a b v hne,
      replace2_cons_of_head aq bq rq b v (fun y _ hc => absurd hc.1 h2)]
    rfl
  | [x], v => by
    rw [show ([x] ++ a :: b :: v) = x :: a :: b :: v from rfl,
      replace2_cons_cons_neg aq bq rq x a _ (fun hc => absurd hc.2 h1),
      replace2_cons_cons_neg aq bq rq a b v hne,
      replace2_cons_of_head aq bq rq b v (fun y _ hc => absurd hc.1 h2)]
    rfl
  | x :: y :: u, v => by
    by_cases hxy : x = aq ∧ y = bq
    · rw [show ((x :: y :: u) ++ a :: b :: v) = x :: y :: (u ++ a :: b :: v) from rfl,
        replace2_cons_cons_pos' aq bq rq x y _ hxy,
        replace2_split_other aq bq rq a b hne h1 h2 u v,
        replace2_cons_cons_pos' aq bq rq x y u hxy]
      simp
    · rw [show ((x :: y :: u) ++ a :: b :: v) = x :: y :: (u ++ a :: b :: v) from rfl,
        replace2_cons_cons_neg aq bq rq x y _ hxy,
        show (y :: (u ++ a :: b :: v)) = (y :: u) ++ a :: b :: v from rfl,
        replace2_split_other aq bq rq a b hne h1 h2 (y :: u) v,
        replace2_cons_cons_neg aq bq rq x y u hxy]
      simp

theorem replace2_append_of_ne (aq bq : ℕ) (rq : List ℕ) :
    ∀ (m Y : List ℕ), (∀ c ∈ m, c ≠ aq) →
      replace2 aq bq rq (m ++ Y) = m ++ replace2 aq bq rq Y := by
  intro m
  induction m with
  | nil => intro Y _; rfl
  | cons c m ih =>
    intro Y h
    rw [List.cons_append,
      replace2_cons_of_head aq bq rq c (m ++ Y)
        (fun y _ hc => absurd hc.1 (h c (List.mem_cons_self c m))),
      ih Y (fun x hx => h x (List.mem_cons_of_mem c hx))]
    rfl

theorem replace2_split_middle (aq bq : ℕ) (rq : List ℕ) (c : ℕ) (m : List ℕ)
    (h1 : ∀ x ∈ c :: m, x ≠ aq) (h2 : ∀ x ∈ c :: m, x ≠ bq) :
    ∀ (X Y : List ℕ), replace2 aq bq rq (X ++ (c :: m) ++ Y) =
      replace2 aq bq rq X ++ (c :: m) ++ replace2 aq bq rq Y
  | [], Y => by
    rw [List.nil_append, replace2_append_of_ne aq bq rq (c :: m) Y h1]
    rfl
  | [x], Y => by
    rw [show (([x] : List ℕ) ++ (c :: m) ++ Y) = x :: c :: (m ++ Y) from rfl,
      replace2_cons_cons_neg aq bq rq x c _
        (fun hc => absurd hc.2 (h2 c (List.mem_cons_self c m))),
      show (c :: (m ++ Y)) = (c :: m) ++ Y from rfl,
      replace2_append_of_ne aq bq rq (c :: m) Y h1]
    rfl
  | x :: y :: X, Y => by
    by_cases hxy : x = aq ∧ y = bq
    · rw [show ((x :: y :: X) ++ (c :: m) ++ Y) = x :: y :: (X ++ (c :: m) ++ Y) from rfl,
        replace2_cons_cons_pos' aq bq rq x y _ hxy,
        replace2_split_middle aq bq rq c m h1 h2 X Y,
        replace2_cons_cons_pos' aq bq rq x y X hxy]
      simp
    · rw [show ((x :: y :: X) ++ (c :: m) ++ Y) = x :: y :: (X ++ (c :: m) ++ Y) from rfl,
        replace2_cons_cons_neg aq bq rq x y _ hxy,
        show (y :: (X ++ (c :: m) ++ Y)) = (y :: X) ++ (c :: m) ++ Y from rfl,
        replace2_split_middle aq bq rq c m h1 h2 (y :: X) Y,
        replace2_cons_cons_neg aq bq rq x y X hxy]
      simp

theorem applySubs_split_keep (a b : ℕ) (ha : a = 196 ∨ a = 197) (hb : b < 192) :
    ∀ (T : List ((ℕ × ℕ) × List ℕ)), (∀ e ∈ T, entryOK e ∧ e.1 ≠ (a, b)) →
      ∀ u v, applySubs T (u ++ a :: b :: v) = applySubs T u ++ a :: b :: applySubs T v := by
  intro T
  induction T with
  | nil => intro _ u v; rfl
  | cons e T ih =>
    intro hT u v
    obtain ⟨hOK, hne⟩ := hT e (List.mem_cons_self e T)
    obtain ⟨hlead, hb1, hb2, hascii⟩ := hOK
    have hne' : ¬(a = e.1.1 ∧ b = e.1.2) := by
      rintro ⟨hx, hy⟩
      exact hne (by rw [hx, hy])
    have h1 : a ≠ e.1.2 := by rcases ha with rfl | rfl <;> omega
    have h2 : b ≠ e.1.1 := by rcases hlead with h' | h' <;> omega
    rw [show applySubs (e :: T) (u ++ a :: b :: v) =
        applySubs T (replace2 e.1.1 e.1.2 e.2 (u ++ a :: b :: v)) from rfl,
      replace2_split_other e.1.1 e.1.2 e.2 a b hne' h1 h2 u v]
    exact ih (fun e' he' => hT e' (List.mem_cons_of_mem e he')) _ _

theorem applySubs_split_middle (c : ℕ) (m : List ℕ) (hm : ∀ x ∈ c :: m, x < 128) :
    ∀ (T : List ((ℕ × ℕ) × List ℕ)), (∀ e ∈ T, entryOK e) →
      ∀ X Y, applySubs T (X ++ (c :: m) ++ Y) = applySubs T X ++ (c :: m) ++ applySubs T Y := by
  intro T
  induction T with
  | nil => intro _ X Y; rfl
  | cons e T ih =>
    intro hT X Y
    obtain ⟨hlead, hb1, hb2, hascii⟩ := hT e (List.mem_cons_self e T)
    have h1 : ∀ x ∈ c :: m, x ≠ e.1.1 := by
      intro x hx
      have := hm x hx
      rcases hlead with h' | h' <;> omega
    have h2 : ∀ x ∈ c :: m, x ≠ e.1.2 := by
      intro x hx
      have := hm x hx
      omega
    rw [show applySubs (e :: T) (X ++ (c :: m) ++ Y) =
        applySubs T (replace2 e.1.1 e.1.2 e.2 (X ++ (c :: m) ++ Y)) from rfl,
      replace2_split_middle e.1.1 e.1.2 e.2 c m h1 h2 X Y]
    exact ih (fun e' he' => hT e' (List.mem_cons_of_mem e he')) _ _

/-! ## Supporting lemma: ingestion counters -/

/-- Helper: the counter invariant is preserved by folding frames. -/
theorem foldFrames_invariant :
    ∀ (events : List (Bool × Option StrikeCand)) (s : Stats),
      s.received = s.stored + s.failed →
      (events.foldl (fun t e => onDataStep e.1 e.2 t) s).received =
        (events.foldl (fun t e => onDataStep e.1 e.2 t) s).stored +
          (events.foldl (fun t e => onDataStep e.1 e.2 t) s).failed := by
  intro events
  induction events with
  | nil => exact fun s h => h
  | cons e es ih =>
    intro s h
    apply ih
    rcases e with ⟨ok, strike⟩
    cases strike <;> cases ok <;> simp [onDataStep, updateStats] <;> omega

/-! ## Claim theorems -/

/-- Claim C2: the longitude repair returns `v` unchanged when `|v| <= 1000`;
when `|v| > 1000` and the digit string of `abs(int(v))` has length 7 or 8 it
inserts a decimal point after the first two digits and reapplies the sign of
`v`; in particular `repair(1604008) = 16.04008`,
`repair(-1613330) = -16.13330` and `repair(45.2) = 45.2`. -/
theorem fixLongitude_spec :
    (∀ (s : List Char) (v : ℚ), pyFloat s = some v → |v| ≤ 1000 → fixLongitude s = some v) ∧
    (∀ (s : List Char) (v : ℚ), pyFloat s = some v → 1000 < |v| →
      ((strDigits (truncAbs v)).length = 7 ∨ (strDigits (truncAbs v)).length = 8) →
      fixLongitude s = some (if v < 0 then -candAt (strDigits (truncAbs v)) 2
                             else candAt (strDigits (truncAbs v)) 2)) ∧
    fixLongitude ("1604008".toList) = some (200501 / 12500) ∧
    fixLongitude ("-1613330".toList) = some (-161333 / 10000) ∧
    fixLongitude ("45.2".toList) = some (226 / 5) := by
  refine ⟨?_, ?_, ?_, ?_, ?_⟩
  · intro s v h hle
    rw [fixLongitude_some s v h, if_neg (not_lt.mpr hle)]
  · intro s v h h1000 hlen
    rw [fixLongitude_some s v h, if_pos h1000]
    rcases hlen with h7 | h8
    · rw [h7]
      norm_num
    · rw [h8]
      norm_num
  · have hp : pyFloatParts ("1604008".toList) = some (false, 1604008, 0, 0) := by decide
    have hpf : pyFloat ("1604008".toList) = some 1604008 := by
      unfold pyFloat; rw [hp]; norm_num
    have ht : truncAbs (1604008 : ℚ) = 1604008 := by norm_num [truncAbs]
    have hd : strDigits 1604008 = [1, 6, 0, 4, 0, 0, 8] := by decide
    rw [fixLongitude_some _ _ hpf,
      if_pos (by rw [abs_of_nonneg (by norm_num : (0:ℚ) ≤ 1604008)]; norm_num)]
    rw [ht, hd]
    norm_num [candAt, valOfDigits]
  · have hp : pyFloatParts ("-1613330".toList) = some (true, 1613330, 0, 0) := by decide
    have hpf : pyFloat ("-1613330".toList) = some (-1613330) := by
      unfold pyFloat; rw [hp]; norm_num
    have ht : truncAbs (-1613330 : ℚ) = 1613330 := by norm_num [truncAbs]
    have hd : strDigits 1613330 = [1, 6, 1, 3, 3, 3, 0] := by decide
    rw [fixLongitude_some _ _ hpf,
      if_pos (by rw [abs_of_nonpos (by norm_num : (-1613330:ℚ) ≤ 0)]; norm_num)]
    rw [ht, hd]
    norm_num [candAt, valOfDigits]
  · have hp : pyFloatParts ("45.2".toList) = some (false, 45, 2, 1) := by decide
    have hpf : pyFloat ("45.2".toList) = some (226 / 5) := by
      unfold pyFloat; rw [hp]; norm_num
    rw [fixLongitude_some _ _ hpf,
      if_neg (by rw [abs_of_nonneg (by norm_num : (0:ℚ) ≤ 226 / 5)]; norm_num)]

/-- Witness for C2 at the concrete input `1604008`. -/
theorem fixLongitude_spec_witness :
    fixLongitude ("1604008".toList) = some (if (1604008 : ℚ) < 0
        then -candAt (strDigits (truncAbs (1604008 : ℚ))) 2
        else candAt (strDigits (truncAbs (1604008 : ℚ))) 2) := by
  have hp : pyFloatParts ("1604008".toList) = some (false, 1604008, 0, 0) := by decide
  have hpf : pyFloat ("1604008".toList) = some 1604008 := by
    unfold pyFloat; rw [hp]; norm_num
  have ht : truncAbs (1604008 : ℚ) = 1604008 := by norm_num [truncAbs]
  exact fixLongitude_spec.2.1 _ 1604008 hpf
    (by rw [abs_of_nonneg (by norm_num : (0:ℚ) ≤ 1604008)]; norm_num)
    (Or.inl (by rw [ht]; decide))

/-- Claim C1 (amended): for a longitude parsing to `v` with `|v| > 1000`,
when the digit string of `abs(int(v))` has length at least 6 and different
from 7 and 8, the repair scans insertion positions `i = 1, 2, ...` in
increasing order and returns the first candidate whose magnitude is
`<= 180` (such a position always exists), reapplying the original sign of
`v`; when the digit string is shorter than 6 characters the parsed value is
returned unchanged (this is where the claim as frozen differs from the
code). -/
theorem fixLongitude_scan_spec :
    ∀ (s : List Char) (v : ℚ), pyFloat s = some v → 1000 < |v| →
      ((strDigits (truncAbs v)).length < 6 → fixLongitude s = some v) ∧
      (6 ≤ (strDigits (truncAbs v)).length → (strDigits (truncAbs v)).length ≠ 7 →
        (strDigits (truncAbs v)).length ≠ 8 →
        ∃ i, 1 ≤ i ∧ i < (strDigits (truncAbs v)).length ∧
          candAt (strDigits (truncAbs v)) i ≤ 180 ∧
          (∀ j, 1 ≤ j → j < i → ¬(candAt (strDigits (truncAbs v)) j ≤ 180)) ∧
          fixLongitude s = some (if v < 0 then -candAt (strDigits (truncAbs v)) i
                                 else candAt (strDigits (truncAbs v)) i)) := by
  intro s v h h1000
  constructor
  · intro hlt
    rw [fixLongitude_some s v h, if_pos h1000, if_neg (by omega)]
  · intro h6 h7 h8
    have hne : strDigits (truncAbs v) ≠ [] := strDigits_ne_nil _
    have hd : ∀ d ∈ strDigits (truncAbs v), d < 10 := strDigits_lt_ten _
    have hcand : candAt (strDigits (truncAbs v)) 1 < 10 := candAt_head_lt_ten _ hne hd
    have hc180 : candAt (strDigits (truncAbs v)) 1 ≤ 180 :=
      le_of_lt (lt_of_lt_of_le hcand (by norm_num))
    have hscan : scanFirst (strDigits (truncAbs v)) = some (candAt (strDigits (truncAbs v)) 1) :=
      scanFirst_head _ (by omega) hc180
    refine ⟨1, le_rfl, by omega, hc180,
      fun j hj1 hj2 => absurd (hj1.trans_lt hj2) (lt_irrefl 1), ?_⟩
    rw [fixLongitude_some s v h, if_pos h1000, if_pos h6, if_neg h8, if_neg h7, hscan]

/-- Witness for C1 at the concrete six-digit input `123456`. -/
theorem fixLongitude_scan_spec_witness :
    ∃ i, 1 ≤ i ∧ i < (strDigits (truncAbs (123456 : ℚ))).length ∧
      candAt (strDigits (truncAbs (123456 : ℚ))) i ≤ 180 ∧
      (∀ j, 1 ≤ j → j < i → ¬(candAt (strDigits (truncAbs (123456 : ℚ))) j ≤ 180)) ∧
      fixLongitude ("123456".toList) = some (if (123456 : ℚ) < 0
          then -candAt (strDigits (truncAbs (123456 : ℚ))) i
          else candAt (strDigits (truncAbs (123456 : ℚ))) i) := by
  have hp : pyFloatParts ("123456".toList) = some (false, 123456, 0, 0) := by decide
  have hpf : pyFloat ("123456".toList) = some 123456 := by
    unfold pyFloat; rw [hp]; norm_num
  have ht : truncAbs (123456 : ℚ) = 123456 := by norm_num [truncAbs]
  exact (fixLongitude_scan_spec _ 123456 hpf
    (by rw [abs_of_nonneg (by norm_num : (0:ℚ) ≤ 123456)]; norm_num)).2
    (by rw [ht]; decide) (by rw [ht]; decide) (by rw [ht]; decide)

/-- Counterexample to C1 as stated: `|v| > 1000` with a 4-digit string is
passed through unchanged although insertion position 1 qualifies. -/
theorem fixLongitude_passthrough_counterexample :
    pyFloat ("5000".toList) = some 5000 ∧ (1000 : ℚ) < |(5000 : ℚ)| ∧
    (strDigits (truncAbs (5000 : ℚ))).length = 4 ∧
    candAt (strDigits (truncAbs (5000 : ℚ))) 1 ≤ 180 ∧
    fixLongitude ("5000".toList) = some 5000 ∧
    candAt (strDigits (truncAbs (5000 : ℚ))) 1 ≠ 5000 := by
  have hp : pyFloatParts ("5000".toList) = some (false, 5000, 0, 0) := by decide
  have hpf : pyFloat ("5000".toList) = some 5000 := by unfold pyFloat; rw [hp]; norm_num
  have ht : truncAbs (5000 : ℚ) = 5000 := by norm_num [truncAbs]
  have hd : strDigits 5000 = [5, 0, 0, 0] := by decide
  refine ⟨hpf, by rw [abs_of_nonneg (by norm_num : (0:ℚ) ≤ 5000)]; norm_num, ?_, ?_, ?_, ?_⟩
  · rw [ht, hd]
    rfl
  · rw [ht, hd]
    norm_num [candAt, valOfDigits]
  · rw [fixLongitude_some _ _ hpf,
      if_pos (by rw [abs_of_nonneg (by norm_num : (0:ℚ) ≤ 5000)]; norm_num),
      if_neg (by rw [ht, hd]; norm_num)]
  · rw [ht, hd]
    norm_num [candAt, valOfDigits]

/-- Claim C10: in the scan branch (digit-string length 6 or at least 9,
`|v| > 1000`), the digit string has no leading zero, the candidate at
insertion position 1 has magnitude below 10, the scan accepts position 1,
and the repair returns that candidate with the original sign, so the
fall-back to the unmodified magnitude is never taken. -/
theorem fixLongitude_scan_accepts_position_one :
    ∀ (s : List Char) (v : ℚ), pyFloat s = some v → 1000 < |v| →
      ((strDigits (truncAbs v)).length = 6 ∨ 9 ≤ (strDigits (truncAbs v)).length) →
      1 ≤ (strDigits (truncAbs v)).headI ∧
      candAt (strDigits (truncAbs v)) 1 < 10 ∧
      scanFirst (strDigits (truncAbs v)) = some (candAt (strDigits (truncAbs v)) 1) ∧
      fixLongitude s = some (if v < 0 then -candAt (strDigits (truncAbs v)) 1
                             else candAt (strDigits (truncAbs v)) 1) := by
  intro s v h h1000 hlen
  have hne0 : truncAbs v ≠ 0 := by
    have := truncAbs_le 1000 v (by exact_mod_cast h1000)
    omega
  have h6 : 6 ≤ (strDigits (truncAbs v)).length := by rcases hlen with h' | h' <;> omega
  have h7 : (strDigits (truncAbs v)).length ≠ 7 := by rcases hlen with h' | h' <;> omega
  have h8 : (strDigits (truncAbs v)).length ≠ 8 := by rcases hlen with h' | h' <;> omega
  have hne : strDigits (truncAbs v) ≠ [] := strDigits_ne_nil _
  have hd : ∀ d ∈ strDigits (truncAbs v), d < 10 := strDigits_lt_ten _
  have hcand : candAt (strDigits (truncAbs v)) 1 < 10 := candAt_head_lt_ten _ hne hd
  have hc180 : candAt (strDigits (truncAbs v)) 1 ≤ 180 :=
    le_of_lt (lt_of_lt_of_le hcand (by norm_num))
  have hscan : scanFirst (strDigits (truncAbs v)) = some (candAt (strDigits (truncAbs v)) 1) :=
    scanFirst_head _ (by omega) hc180
  refine ⟨strDigits_headI_pos _ hne0, hcand, hscan, ?_⟩
  rw [fixLongitude_some s v h, if_pos h1000, if_pos h6, if_neg h8, if_neg h7, hscan]

/-- Witness for C10 at the concrete nine-digit input `987654321`. -/
theorem fixLongitude_scan_accepts_position_one_witness :
    1 ≤ (strDigits (truncAbs (987654321 : ℚ))).headI ∧
    candAt (strDigits (truncAbs (987654321 : ℚ))) 1 < 10 ∧
    scanFirst (strDigits (truncAbs (987654321 : ℚ))) =
      some (candAt (strDigits (truncAbs (987654321 : ℚ))) 1) ∧
    fixLongitude ("987654321".toList) = some (if (987654321 : ℚ) < 0
        then -candAt (strDigits (truncAbs (987654321 : ℚ))) 1
        else candAt (strDigits (truncAbs (987654321 : ℚ))) 1) := by
  have hp : pyFloatParts ("987654321".toList) = some (false, 987654321, 0, 0) := by decide
  have hpf : pyFloat ("987654321".toList) = some 987654321 := by
    unfold pyFloat; rw [hp]; norm_num
  have ht : truncAbs (987654321 : ℚ) = 987654321 := by norm_num [truncAbs]
  exact fixLongitude_scan_accepts_position_one _ 987654321 hpf
    (by rw [abs_of_nonneg (by norm_num : (0:ℚ) ≤ 987654321)]; norm_num)
    (Or.inr (by rw [ht]; decide))

/-- Claim C3: the validator accepts a candidate exactly when both
coordinates are present with `|latitude| <= 90` and `|longitude| <= 180`;
boundary values 90, -90, -180 and 180 are accepted, 90.0001 and 180.0001
are rejected. -/
theorem validateStrike_spec :
    (∀ s : StrikeCand, validateStrike s = true ↔
      ∃ la lo, s.lat = some la ∧ s.lon = some lo ∧ |la| ≤ 90 ∧ |lo| ≤ 180) ∧
    validateStrike (mkCand (some 90) (some 0)) = true ∧
    validateStrike (mkCand (some (-90)) (some 0)) = true ∧
    validateStrike (mkCand (some (900001 / 10000)) (some 0)) = false ∧
    validateStrike (mkCand (some 0) (some (-180))) = true ∧
    validateStrike (mkCand (some 0) (some 180)) = true ∧
    validateStrike (mkCand (some 0) (some (1800001 / 10000))) = false := by
  have habs : ∀ q : ℚ, 0 ≤ q → |q| = q := fun q h => abs_of_nonneg h
  have habs' : ∀ q : ℚ, q ≤ 0 → |q| = -q := fun q h => abs_of_nonpos h
  refine ⟨?_, ?_, ?_, ?_, ?_, ?_, ?_⟩
  · intro s
    rcases s with ⟨t, ts, la?, lo?, al, po, md, mc⟩
    cases la? with
    | none => simp [validateStrike]
    | some la =>
      cases lo? with
      | none => simp [validateStrike]
      | some lo =>
        simp only [validateStrike, Option.some.injEq]
        split_ifs with h
        · simp only [Bool.false_eq_true, false_iff]
          rintro ⟨la', lo', rfl, rfl, h1, h2⟩
          rcases h with h | h
          · exact absurd h1 (not_le.mpr h)
          · exact absurd h2 (not_le.mpr h)
        · push_neg at h
          simp only [true_iff]
          exact ⟨la, lo, rfl, rfl, h.1, h.2⟩
  · simp only [mkCand, validateStrike]
    rw [if_neg]
    push_neg
    constructor
    · rw [habs 90 (by norm_num)]
    · rw [habs 0 le_rfl]
      norm_num
  · simp only [mkCand, validateStrike]
    rw [if_neg]
    push_neg
    constructor
    · rw [habs' (-90) (by norm_num)]
      norm_num
    · rw [habs 0 le_rfl]
      norm_num
  · simp only [mkCand, validateStrike]
    rw [if_pos]
    left
    rw [habs (900001 / 10000) (by norm_num)]
    norm_num
  · simp only [mkCand, validateStrike]
    rw [if_neg]
    push_neg
    constructor
    · rw [habs 0 le_rfl]
      norm_num
    · rw [habs' (-180) (by norm_num)]
      norm_num
  · simp only [mkCand, validateStrike]
    rw [if_neg]
    push_neg
    constructor
    · rw [habs 0 le_rfl]
      norm_num
    · rw [habs 180 (by norm_num)]
  · simp only [mkCand, validateStrike]
    rw [if_pos]
    right
    rw [habs (1800001 / 10000) (by norm_num)]
    norm_num

/-- Claim C4: timestamp normalization treats raw values above `10^15` as
microseconds, above `10^12` as milliseconds and anything else as seconds,
dividing by 1000000, 1000 or 1 respectively; the three fixture values
1700000000, 1700000000000 and 1700000000000000 normalize to the same
instant. -/
theorem normalizeTimestamp_spec :
    (∀ raw : ℕ, 10 ^ 15 < raw → normalizeTimestamp raw = (raw : ℚ) / 1000000) ∧
    (∀ raw : ℕ, raw ≤ 10 ^ 15 → 10 ^ 12 < raw → normalizeTimestamp raw = (raw : ℚ) / 1000) ∧
    (∀ raw : ℕ, raw ≤ 10 ^ 12 → normalizeTimestamp raw = (raw : ℚ)) ∧
    normalizeTimestamp 1700000000 = normalizeTimestamp 1700000000000000 ∧
    normalizeTimestamp 1700000000000 = normalizeTimestamp 1700000000000000 := by
  refine ⟨?_, ?_, ?_, ?_, ?_⟩
  · intro raw h
    have h' : (10 : ℚ) ^ 15 < (raw : ℚ) := by exact_mod_cast h
    simp [normalizeTimestamp, h']
  · intro raw h1 h2
    have h1' : ¬((10 : ℚ) ^ 15 < (raw : ℚ)) := by
      push_neg
      exact_mod_cast h1
    have h2' : (10 : ℚ) ^ 12 < (raw : ℚ) := by exact_mod_cast h2
    simp [normalizeTimestamp, h1', h2']
  · intro raw h1
    have h1' : ¬((10 : ℚ) ^ 15 < (raw : ℚ)) := by
      push_neg
      calc (raw : ℚ) ≤ ((10 ^ 12 : ℕ) : ℚ) := by exact_mod_cast h1
        _ ≤ (10 : ℚ) ^ 15 := by norm_num
    have h2' : ¬((10 : ℚ) ^ 12 < (raw : ℚ)) := by
      push_neg
      exact_mod_cast h1
    simp [normalizeTimestamp, h1', h2']
  · norm_num [normalizeTimestamp]
  · norm_num [normalizeTimestamp]

/-- Witness for C4 at the concrete microsecond-range raw value. -/
theorem normalizeTimestamp_spec_witness :
    normalizeTimestamp 2000000000000000 = (2000000000000000 : ℚ) / 1000000 :=
  normalizeTimestamp_spec.1 2000000000000000 (by norm_num)

/-- Claim C7: the ingestion-health success rate is
`stored / received * 100` when `received > 0` and 0 when `received = 0`
(no division is performed); received 10 and stored 7 yield 70.0 in the
response. -/
theorem ingestionSuccessRate_spec :
    (∀ received stored : ℕ, 0 < received →
      ingestionSuccessRate received stored = (stored : ℚ) / (received : ℚ) * 100) ∧
    (∀ stored : ℕ, ingestionSuccessRate 0 stored = 0) ∧
    ingestionRateResponse 10 7 = 70 := by
  refine ⟨fun r st h => by simp [ingestionSuccessRate, h], fun st => by simp [ingestionSuccessRate], ?_⟩
  have h1 : ingestionSuccessRate 10 7 = 70 := by norm_num [ingestionSuccessRate]
  rw [ingestionRateResponse, h1]
  norm_num [round2, roundHalfEven]

/-- Witness for C7 at received 10, stored 7. -/
theorem ingestionSuccessRate_spec_witness :
    ingestionSuccessRate 10 7 = (7 : ℚ) / (10 : ℚ) * 100 :=
  ingestionSuccessRate_spec.1 10 7 (by norm_num)

/-- Claim C6: a decoded text with no recognizable `time` field produces no
record (extraction fails entirely), and processing such a frame adds 1 to
`total_received` and 1 to `total_failed`, leaving `total_stored`
unchanged. -/
theorem missing_time_field_spec :
    ∀ (text : List Char) (s : Stats) (insertOk : Bool), searchTime text = none →
      extractFields text = none ∧ decodeText text = none ∧
      onDataStep insertOk (decodeText text) s =
        { received := s.received + 1, stored := s.stored, failed := s.failed + 1 } := by
  intro text s ok h
  have he : extractFields text = none := by simp [extractFields, h]
  have hd : decodeText text = none := by simp [decodeText, he]
  refine ⟨he, hd, ?_⟩
  rw [hd]
  simp [onDataStep, updateStats]

/-- Witness for C6 at a concrete text with no `time` field. -/
theorem missing_time_field_spec_witness :
    extractFields ("hello".toList) = none ∧ decodeText ("hello".toList) = none ∧
    onDataStep true (decodeText ("hello".toList)) ⟨5, 3, 2⟩ =
      { received := 6, stored := 3, failed := 3 } := by
  have h := missing_time_field_spec ("hello".toList) ⟨5, 3, 2⟩ true (by decide)
  exact ⟨h.1, h.2.1, by simpa using h.2.2⟩

/-- Claim C9: every processed frame adds exactly 1 to `total_received` and
exactly 1 to exactly one of `total_stored` (decode and persist both
succeeded) or `total_failed` (anything else), so
`total_received = total_stored + total_failed` holds after any sequence of
frames starting from the all-zero counters. -/
theorem counters_spec :
    (∀ (insertOk : Bool) (strike : Option StrikeCand) (s : Stats),
      (onDataStep insertOk strike s).received = s.received + 1 ∧
      (((onDataStep insertOk strike s).stored = s.stored + 1 ∧
        (onDataStep insertOk strike s).failed = s.failed) ∨
       ((onDataStep insertOk strike s).stored = s.stored ∧
        (onDataStep insertOk strike s).failed = s.failed + 1))) ∧
    (∀ events, (runFrames events).received = (runFrames events).stored + (runFrames events).failed) := by
  constructor
  · intro ok strike s
    cases strike <;> cases ok <;> simp [onDataStep, updateStats]
  · intro events
    exact foldFrames_invariant events initialStats rfl

/-- Claim C5 (amended): for every pre-fetched candidate list the proximity
query keeps exactly the candidates whose distance to the center is at most
the radius, sorts the kept candidates ascending by the distance rounded to
two decimals (the value attached as `distance_km`; this is where the claim
as frozen, which says the exact distance, differs from the code), truncates
to the requested limit, and the pre-fetch requests twice the caller's
limit; the synthetic 0 km / 10 km / 60 km fixture with radius 50 km returns
the 0 km and 10 km points in that order.  The distance function is a
parameter; `api.py` instantiates it with the haversine great-circle
distance (Earth radius 6371 km). -/
theorem nearby_pipeline_spec :
    (∀ (dist : StrikeRow → ℚ) (radius : ℚ) (limit : ℕ) (rows : List StrikeRow),
      ∃ w : List (StrikeRow × ℚ),
        w.Perm ((rows.filter fun s => decide (dist s ≤ radius)).map fun s => (s, round2 (dist s))) ∧
        (w.Pairwise fun a b => a.2 ≤ b.2) ∧
        nearbyPipeline dist radius limit rows = w.take limit) ∧
    (∀ limit, prefetchCount limit = 2 * limit) ∧
    nearbyPipeline exampleDist 50 100 [row0, row10, row60] = [(row0, 0), (row10, 10)] := by
  refine ⟨?_, fun limit => by rw [prefetchCount]; ring, ?_⟩
  · intro dist radius limit rows
    exact ⟨sortByKey (fun p => p.2)
        ((rows.filter fun s => decide (dist s ≤ radius)).map fun s => (s, round2 (dist s))),
      sortByKey_perm _ _, sortByKey_pairwise _ _, rfl⟩
  · have e0 : exampleDist row0 = 0 := rfl
    have e1 : exampleDist row10 = 10 := rfl
    have e2 : exampleDist row60 = 60 := rfl
    have d0 : decide (exampleDist row0 ≤ 50) = true := by rw [decide_eq_true_eq, e0]; norm_num
    have d1 : decide (exampleDist row10 ≤ 50) = true := by rw [decide_eq_true_eq, e1]; norm_num
    have d2 : decide (exampleDist row60 ≤ 50) = false := by
      rw [decide_eq_false_iff_not, e2]; norm_num
    have r0 : round2 (exampleDist row0) = 0 := by
      rw [e0]
      norm_num [round2, roundHalfEven]
    have r1 : round2 (exampleDist row10) = 10 := by
      rw [e1]
      norm_num [round2, roundHalfEven]
    rw [nearbyPipeline]
    simp only [List.filter, d0, d1, d2, List.map, r0, r1]
    have hins : insSorted (fun p : StrikeRow × ℚ => p.2) (row10, 10) [(row0, 0)] =
        [(row0, 0), (row10, 10)] := by
      rw [insSorted, if_pos (by norm_num : ((row0, (0:ℚ)).2 ≤ (row10, (10:ℚ)).2))]
      rfl
    rw [sortByKey]
    simp only [List.foldl]
    rw [show insSorted (fun p : StrikeRow × ℚ => p.2) (row0, 0) [] = [(row0, 0)] from rfl, hins]
    rfl

/-- Counterexample to C5 as stated: the sort key is the distance rounded
to two decimals, so exact distances 10.004 and 10.001 tie and keep
pre-fetch order, which is not ascending by exact distance. -/
theorem nearby_sort_rounded_counterexample :
    tieDist rowNearB < tieDist rowNearA ∧
    tieDist rowNearA ≤ 50 ∧ tieDist rowNearB ≤ 50 ∧
    nearbyPipeline tieDist 50 10 [rowNearA, rowNearB] = [(rowNearA, 10), (rowNearB, 10)] := by
  have eA : tieDist rowNearA = 10004 / 1000 := rfl
  have eB : tieDist rowNearB = 10001 / 1000 := rfl
  refine ⟨by rw [eA, eB]; norm_num, by rw [eA]; norm_num, by rw [eB]; norm_num, ?_⟩
  have dA : decide (tieDist rowNearA ≤ 50) = true := by rw [decide_eq_true_eq, eA]; norm_num
  have dB : decide (tieDist rowNearB ≤ 50) = true := by rw [decide_eq_true_eq, eB]; norm_num
  have rA : round2 (tieDist rowNearA) = 10 := by
    rw [eA]
    norm_num [round2, roundHalfEven]
  have rB : round2 (tieDist rowNearB) = 10 := by
    rw [eB]
    norm_num [round2, roundHalfEven]
  rw [nearbyPipeline]
  simp only [List.filter, dA, dB, List.map, rA, rB]
  have hins : insSorted (fun p : StrikeRow × ℚ => p.2) (rowNearB, 10) [(rowNearA, 10)] =
      [(rowNearA, 10), (rowNearB, 10)] := by
    rw [insSorted, if_pos (by norm_num : ((rowNearA, (10:ℚ)).2 ≤ (rowNearB, (10:ℚ)).2))]
    rfl
  rw [sortByKey]
  simp only [List.foldl]
  rw [show insSorted (fun p : StrikeRow × ℚ => p.2) (rowNearA, 10) [] = [(rowNearA, 10)] from rfl,
    hins]
  rfl

/-- Claim C8 (amended): every mapped 2-byte sequence alone decodes to
exactly its mapped output, and every occurrence of a mapped 2-byte sequence
with a nonempty replacement is replaced by exactly that output independent
of the surrounding bytes of the frame.  (Order-independence, the part of
the claim as frozen that fails, is refuted separately: deletion entries can
create new mapped occurrences, so the fixed table order matters.) -/
theorem substitution_spec :
    (∀ e ∈ subTable, applySubs subTable [e.1.1, e.1.2] = e.2) ∧
    (∀ e ∈ subTable, e.2 ≠ [] → ∀ u v : List ℕ,
      applySubs subTable (u ++ e.1.1 :: e.1.2 :: v) =
        applySubs subTable u ++ e.2 ++ applySubs subTable v) := by
  constructor
  · decide
  · intro e he hr u v
    obtain ⟨T1, T2, heq⟩ := List.append_of_mem he
    have hOK : ∀ e' ∈ subTable, entryOK e' := by decide
    have hnodup : (subTable.map Prod.fst).Nodup := by decide
    obtain ⟨hlead, hb1, hb2, hascii⟩ := hOK e he
    have hOK1 : ∀ e' ∈ T1, entryOK e' := fun e' h' =>
      hOK e' (by rw [heq]; exact List.mem_append_left _ h')
    have hOK2 : ∀ e' ∈ T2, entryOK e' := fun e' h' =>
      hOK e' (by rw [heq]; exact List.mem_append_right _ (List.mem_cons_of_mem e h'))
    have hne1 : ∀ e' ∈ T1, entryOK e' ∧ e'.1 ≠ (e.1.1, e.1.2) := by
      intro e' h'
      refine ⟨hOK1 e' h', ?_⟩
      rw [heq] at hnodup
      rw [List.map_append, List.map_cons, List.nodup_append] at hnodup
      intro hc
      have he'e : e'.1 = e.1 := by rw [hc]
      exact hnodup.2.2 (List.mem_map_of_mem Prod.fst h')
        (by rw [he'e]; exact List.mem_cons_self _ _)
    have hab : e.1.1 ≠ e.1.2 := by rcases hlead with h' | h' <;> omega
    have hsplit : ∀ s, applySubs subTable s =
        applySubs T2 (replace2 e.1.1 e.1.2 e.2 (applySubs T1 s)) := by
      intro s
      rw [heq, applySubs, List.foldl_append]
      rfl
    obtain ⟨c, m, hcm⟩ := List.exists_cons_of_ne_nil hr
    have hmiddle : ∀ x ∈ c :: m, x < 128 := by
      intro x hx
      apply hascii
      rw [hcm]
      exact hx
    rw [hsplit (u ++ e.1.1 :: e.1.2 :: v), hsplit u, hsplit v,
      applySubs_split_keep e.1.1 e.1.2 hlead hb2 T1 hne1 u v,
      replace2_split_self e.1.1 e.1.2 e.2 hab (applySubs T1 u) (applySubs T1 v),
      hcm,
      applySubs_split_middle c m hmiddle T2 hOK2]

/-- Witness for C8: the digit entry `c4 88` surrounded by ASCII bytes. -/
theorem substitution_spec_witness :
    applySubs subTable ([65] ++ 196 :: 136 :: [66]) =
      applySubs subTable [65] ++ [48] ++ applySubs subTable [66] :=
  substitution_spec.2 ((196, 136), [48]) (by decide) (by decide) [65] [66]

/-- Counterexample to C8 as stated: applying the table entries in the
reverse order changes the result on the frame `c4 c4 ac 88` (the deletion
entry `c4 ac` creates a new occurrence of the digit entry `c4 88`). -/
theorem substitution_order_counterexample :
    subTable.reverse.Perm subTable ∧
    applySubs subTable [196, 196, 172, 136] = [196, 136] ∧
    applySubs subTable.reverse [196, 196, 172, 136] = [48] ∧
    applySubs subTable [196, 196, 172, 136] ≠ applySubs subTable.reverse [196, 196, 172, 136] :=
  ⟨List.reverse_perm subTable, by decide, by decide, by decide⟩

end LightningPipeline
